import Mathlib

/-!
Shallow embedding of the StreamFlow core: the playback queue state machine
(`MusicPlayer` in `src/server.js`), the persistent store (`DatabaseManager`
in `src/server/database.js`) and the response cache / source aggregator
(`APIManager` in `src/api-manager.js`), together with theorems settling the
specification claims about them.

JS numbers that are used as times, durations and indices are modelled as
integers (`ℤ`); the player volume, a fractional value, is modelled as `ℚ`.
JS arrays are Lean lists; `Array.prototype.splice`-based deletion and
insertion are `List.eraseIdx` and `List.insertIdx`.
-/

namespace StreamFlow

/-- A track as produced by the source adapters: identity is the
`(source, id)` pair, the rest is display metadata. -/
structure Track where
  id : String
  title : String
  artist : String
  source : String
  deriving DecidableEq, Repr

/-- Repeat mode of the player, the JS strings 'none' / 'one' / 'all'. -/
inductive RepeatMode where
  | rnone
  | rone
  | rall
  deriving DecidableEq, Repr

/-- The queue-relevant state of `MusicPlayer` (src/server.js): the queue
array, the cursor `queueIndex` (the spec's `currentIndex`, `-1` when
nothing is selected), and shuffle / repeat flags.  The constructor sets
`queue = []`, `queueIndex = -1`, `shuffle = false`, `repeatMode = 'none'`,
`volume = 1`. -/
structure PlayerState where
  queue : List Track
  queueIndex : ℤ
  shuffle : Bool
  repeatMode : RepeatMode
  volume : ℚ
  deriving DecidableEq, Repr

/-- Initial player state from the `MusicPlayer` constructor. -/
def initialPlayer : PlayerState :=
  { queue := [], queueIndex := -1, shuffle := false,
    repeatMode := RepeatMode.rnone, volume := 1 }

/-- `addToQueue(track)` (src/server.js:266-269): pushes the track; the
cursor is not touched. -/
def addToQueue (s : PlayerState) (track : Track) : PlayerState :=
  { s with queue := s.queue ++ [track] }

/-- `removeFromQueue(index)` (src/server.js:271-277): splices the entry out
and decrements the cursor only when the removed index is strictly before
it. -/
def removeFromQueue (s : PlayerState) (index : ℕ) : PlayerState :=
  { s with
    queue := s.queue.eraseIdx index
    queueIndex := if (index : ℤ) < s.queueIndex then s.queueIndex - 1 else s.queueIndex }

/-- `reorderQueue(fromIndex, toIndex)` (src/server.js:285-299): splices the
entry out of `fromIndex`, re-inserts it at `toIndex`, then adjusts the
cursor by the three-way rule in the code. -/
def reorderQueue (s : PlayerState) (fromIndex toIndex : ℕ) : PlayerState :=
  match s.queue.get? fromIndex with
  | none => s
  | some removed =>
    { s with
      queue := (s.queue.eraseIdx fromIndex).insertIdx toIndex removed
      queueIndex :=
        if (fromIndex : ℤ) = s.queueIndex then (toIndex : ℤ)
        else if (fromIndex : ℤ) < s.queueIndex ∧ (toIndex : ℤ) ≥ s.queueIndex then
          s.queueIndex - 1
        else if (fromIndex : ℤ) > s.queueIndex ∧ (toIndex : ℤ) ≤ s.queueIndex then
          s.queueIndex + 1
        else s.queueIndex }

/-- `clearQueue()` (src/server.js:279-283). -/
def clearQueue (s : PlayerState) : PlayerState :=
  { s with queue := [], queueIndex := -1 }

/-- `setVolume(volume)` (src/server.js:218-221): stores
`Math.max(0, Math.min(1, volume))`. -/
def setVolume (s : PlayerState) (volume : ℚ) : PlayerState :=
  { s with volume := max 0 (min 1 volume) }

/-- `adjustVolume(delta)` (src/server.js:223-225): delegates to `setVolume`
on `this.volume + delta`. -/
def adjustVolume (s : PlayerState) (delta : ℚ) : PlayerState :=
  setVolume s (s.volume + delta)

/-- `playRandom()` (src/server.js:200-210): no-op when the queue has at
most one entry; otherwise draws `Math.floor(Math.random() * length)` until
the draw differs from `queueIndex` and moves the cursor there.  The stream
of draws is made explicit as a list; the do-while loop consumes it until a
draw differs from the cursor (the loop in the code never exits otherwise,
so a run that exhausts its draws is modelled as leaving the state). -/
def playRandom (s : PlayerState) (draws : List ℕ) : PlayerState :=
  if s.queue.length ≤ 1 then s
  else
    match draws.find? (fun (d : ℕ) => ¬ ((d : ℤ) = s.queueIndex)) with
    | some d => { s with queueIndex := (d : ℤ) }
    | none => s

/-- `playNext()` (src/server.js:178-188): shuffle delegates to
`playRandom`; otherwise the cursor increments when not at the last index,
wraps to 0 under repeat-all, and is left alone otherwise.  Note the code
checks `shuffle` first and never consults `repeatMode === 'one'` here. -/
def playNext (s : PlayerState) (draws : List ℕ) : PlayerState :=
  if s.shuffle then playRandom s draws
  else if s.queueIndex < (s.queue.length : ℤ) - 1 then
    { s with queueIndex := s.queueIndex + 1 }
  else if s.repeatMode = RepeatMode.rall then
    { s with queueIndex := 0 }
  else s

/-- `handleTrackEnd()` (src/server.js:301-308): under repeat-one the track
is replayed in place (`seekTo(0); play()` — no state field changes);
otherwise the natural track end delegates to `playNext`. -/
def handleTrackEnd (s : PlayerState) (draws : List ℕ) : PlayerState :=
  if s.repeatMode = RepeatMode.rone then s else playNext s draws

/-- A queue mutation, for stating invariants over operation sequences. -/
inductive QOp where
  | add (track : Track)
  | remove (index : ℕ)
  | reorder (fromIndex toIndex : ℕ)
  deriving DecidableEq, Repr

/-- Apply one mutation to the player state. -/
def applyQOp (s : PlayerState) : QOp → PlayerState
  | QOp.add track => addToQueue s track
  | QOp.remove index => removeFromQueue s index
  | QOp.reorder fromIndex toIndex => reorderQueue s fromIndex toIndex

/-- In-range side condition for a mutation, as the claims assume. -/
def validQOp (s : PlayerState) : QOp → Prop
  | QOp.add _ => True
  | QOp.remove index => index < s.queue.length
  | QOp.reorder fromIndex toIndex =>
      fromIndex < s.queue.length ∧ toIndex < s.queue.length

instance (s : PlayerState) (op : QOp) : Decidable (validQOp s op) := by
  cases op <;> simp [validQOp] <;> infer_instance

/-- Apply a sequence of mutations, left to right. -/
def applyQOps (s : PlayerState) (ops : List QOp) : PlayerState :=
  ops.foldl applyQOp s

/-- Every operation of the sequence is in range in the state it is applied
to. -/
def validQSeq : PlayerState → List QOp → Prop
  | _, [] => True
  | s, op :: ops => validQOp s op ∧ validQSeq (applyQOp s op) ops

instance : ∀ (s : PlayerState) (ops : List QOp), Decidable (validQSeq s ops)
  | _, [] => by simp [validQSeq]; infer_instance
  | s, op :: ops =>
    have : Decidable (validQSeq (applyQOp s op) ops) := instDecidableValidQSeq _ _
    by simp [validQSeq]; infer_instance

/-- The invariant claimed by the spec for the queue: the cursor is `-1`
exactly on the empty queue and otherwise a valid index. -/
def specQueueInvariant (s : PlayerState) : Prop :=
  (s.queueIndex = -1 ↔ s.queue.length = 0) ∧
    (s.queue.length ≠ 0 → 0 ≤ s.queueIndex ∧ s.queueIndex < (s.queue.length : ℤ))

instance (s : PlayerState) : Decidable (specQueueInvariant s) := by
  unfold specQueueInvariant; infer_instance

/-- The invariant the code actually maintains: the cursor stays within
`[-1, queue.length]`.  `add` does not re-derive the cursor (so `-1` can
coexist with a non-empty queue) and removing the entry at the cursor when
it is last leaves the cursor equal to the new length. -/
def codeQueueInvariant (s : PlayerState) : Prop :=
  -1 ≤ s.queueIndex ∧ s.queueIndex ≤ (s.queue.length : ℤ)

instance (s : PlayerState) : Decidable (codeQueueInvariant s) := by
  unfold codeQueueInvariant; infer_instance

/-- Concrete tracks for counterexamples and witnesses. -/
def t0 : Track := ⟨"0", "T0", "A0", "youtube"⟩

def t1 : Track := ⟨"1", "T1", "A1", "youtube"⟩

def t2 : Track := ⟨"2", "T2", "A2", "soundcloud"⟩

def t3 : Track := ⟨"3", "T3", "A3", "audius"⟩

/-- Clamping into the unit interval lands in the unit interval. -/
theorem clamp01_mem (v : ℚ) : 0 ≤ max 0 (min 1 v) ∧ max 0 (min 1 v) ≤ 1 :=
  ⟨le_max_left _ _, max_le (by norm_num) (min_le_left _ _)⟩

/-- One in-range mutation preserves the cursor bound `-1 ≤ qi ≤ length`. -/
theorem codeQueueInvariant_applyQOp (s : PlayerState) (op : QOp)
    (hs : codeQueueInvariant s) (hv : validQOp s op) :
    codeQueueInvariant (applyQOp s op) := by
  obtain ⟨h1, h2⟩ := hs
  cases op with
  | add track =>
    simp only [applyQOp, addToQueue, codeQueueInvariant, List.length_append,
      List.length_cons, List.length_nil]
    omega
  | remove index =>
    simp only [validQOp] at hv
    simp only [applyQOp, removeFromQueue, codeQueueInvariant, List.length_eraseIdx, hv,
      if_pos]
    split <;> omega
  | reorder fromIndex toIndex =>
    obtain ⟨hf, ht⟩ := hv
    have hr : s.queue.get? fromIndex = some (s.queue.get ⟨fromIndex, hf⟩) :=
      List.get?_eq_get hf
    have hlen1 : (s.queue.eraseIdx fromIndex).length = s.queue.length - 1 := by
      rw [List.length_eraseIdx]; simp [hf]
    have hlen : ((s.queue.eraseIdx fromIndex).insertIdx toIndex
        (s.queue.get ⟨fromIndex, hf⟩)).length = s.queue.length := by
      rw [List.length_insertIdx _ _ (by omega)]; omega
    simp only [applyQOp, reorderQueue, hr, codeQueueInvariant, hlen]
    split_ifs <;> push_cast at * <;> omega

/-- The cursor bound holds after every valid mutation sequence. -/
theorem codeQueueInvariant_applyQOps : ∀ (ops : List QOp) (s : PlayerState),
    codeQueueInvariant s → validQSeq s ops → codeQueueInvariant (applyQOps s ops)
  | [], _, hs, _ => hs
  | op :: ops, s, hs, hv =>
    codeQueueInvariant_applyQOps ops (applyQOp s op)
      (codeQueueInvariant_applyQOp s op hs hv.1) hv.2

/-- C1 (counterexample): a single `addToQueue` on the empty queue leaves
`queueIndex = -1` with a non-empty queue, so the claimed biconditional
invariant fails after the very first operation. -/
theorem C1_counterexample :
    validQSeq initialPlayer [QOp.add t0] ∧
      ¬ specQueueInvariant (applyQOps initialPlayer [QOp.add t0]) := by
  decide

/-- C1 (amended): for every finite sequence of in-range queue mutations
starting from the empty queue, after each operation the cursor satisfies
`-1 ≤ queueIndex ≤ tracks.length`; the stronger biconditional does not
hold, because `addToQueue` never re-derives the cursor and removing the
entry at the cursor when it is last leaves the cursor equal to the new
length. -/
theorem C1_queue_invariant (ops : List QOp) (h : validQSeq initialPlayer ops) :
    codeQueueInvariant (applyQOps initialPlayer ops) :=
  codeQueueInvariant_applyQOps ops initialPlayer (by decide) h

/-- C1 witness: a concrete valid sequence keeps the cursor within bounds. -/
theorem C1_queue_invariant_witness :
    validQSeq initialPlayer [QOp.add t0, QOp.add t1, QOp.remove 0, QOp.reorder 0 0] ∧
      codeQueueInvariant
        (applyQOps initialPlayer [QOp.add t0, QOp.add t1, QOp.remove 0, QOp.reorder 0 0]) :=
  ⟨by decide, C1_queue_invariant _ (by decide)⟩

/-- The worked example of the reorder claim: queue `[t0,t1,t2,t3]` with the
cursor on `t2`. -/
def ex4 : PlayerState :=
  { queue := [t0, t1, t2, t3], queueIndex := 2, shuffle := false,
    repeatMode := RepeatMode.rnone, volume := 1 }

/-- C7: `reorderQueue(fromIndex, toIndex)` with in-range indices keeps the
length, puts the moved element at `toIndex`, leaves the relative order of
the other elements unchanged (erasing the moved element from the result
gives the same list as erasing it from the source), and adjusts the cursor
by the claimed four-way rule. -/
theorem C7_reorder_cursor (s : PlayerState) (f t : ℕ)
    (hf : f < s.queue.length) (ht : t < s.queue.length) :
    (reorderQueue s f t).queue.length = s.queue.length ∧
    (reorderQueue s f t).queue[t]? = s.queue[f]? ∧
    (reorderQueue s f t).queue.eraseIdx t = s.queue.eraseIdx f ∧
    ((f : ℤ) = s.queueIndex → (reorderQueue s f t).queueIndex = (t : ℤ)) ∧
    ((f : ℤ) < s.queueIndex → s.queueIndex ≤ (t : ℤ) →
      (reorderQueue s f t).queueIndex = s.queueIndex - 1) ∧
    ((t : ℤ) ≤ s.queueIndex → s.queueIndex < (f : ℤ) →
      (reorderQueue s f t).queueIndex = s.queueIndex + 1) ∧
    (¬ (f : ℤ) = s.queueIndex → ¬ ((f : ℤ) < s.queueIndex ∧ s.queueIndex ≤ (t : ℤ)) →
      ¬ ((t : ℤ) ≤ s.queueIndex ∧ s.queueIndex < (f : ℤ)) →
      (reorderQueue s f t).queueIndex = s.queueIndex) := by
  have hr : s.queue.get? f = some (s.queue.get ⟨f, hf⟩) := List.get?_eq_get hf
  have hlen1 : (s.queue.eraseIdx f).length = s.queue.length - 1 := by
    rw [List.length_eraseIdx]; simp [hf]
  have htle : t ≤ (s.queue.eraseIdx f).length := by omega
  have hlen : ((s.queue.eraseIdx f).insertIdx t (s.queue.get ⟨f, hf⟩)).length
      = s.queue.length := by
    rw [List.length_insertIdx _ _ htle]; omega
  refine ⟨?_, ?_, ?_, ?_, ?_, ?_, ?_⟩
  · simp only [reorderQueue, hr, hlen]
  · simp only [reorderQueue, hr]
    have ht2 : t < ((s.queue.eraseIdx f).insertIdx t (s.queue.get ⟨f, hf⟩)).length := by
      omega
    rw [List.getElem?_eq_getElem ht2, List.getElem_insertIdx_self _ _ _ htle,
      ← List.get?_eq_getElem?, hr]
  · simp only [reorderQueue, hr]
    exact List.eraseIdx_insertIdx t (s.queue.eraseIdx f)
  all_goals
    simp only [reorderQueue, hr]
    split_ifs <;> intros <;> omega

/-- C7 witness: the claim's worked example — `reorder(0,3)` on
`[t0,t1,t2,t3]` with cursor 2 yields `[t1,t2,t3,t0]` with cursor 1. -/
theorem C7_reorder_cursor_witness :
    (reorderQueue ex4 0 3).queue = [t1, t2, t3, t0] ∧
      (reorderQueue ex4 0 3).queueIndex = 1 :=
  ⟨by decide,
    by
      have h := (C7_reorder_cursor ex4 0 3 (by decide) (by decide)).2.2.2.2.1
        (by decide) (by decide)
      simpa using h⟩

/-- A volume mutation: a direct `setVolume` or a relative `adjustVolume`. -/
inductive VOp where
  | vset (v : ℚ)
  | vadjust (d : ℚ)

/-- Apply one volume mutation. -/
def applyVOp (s : PlayerState) : VOp → PlayerState
  | VOp.vset v => setVolume s v
  | VOp.vadjust d => adjustVolume s d

/-- Apply a sequence of volume mutations, left to right. -/
def applyVOps (s : PlayerState) (ops : List VOp) : PlayerState :=
  ops.foldl applyVOp s

/-- Volume stays in the unit interval under any mutation sequence. -/
theorem volume_mem_applyVOps : ∀ (ops : List VOp) (s : PlayerState),
    0 ≤ s.volume → s.volume ≤ 1 →
    0 ≤ (applyVOps s ops).volume ∧ (applyVOps s ops).volume ≤ 1
  | [], _, h0, h1 => ⟨h0, h1⟩
  | op :: ops, s, _, _ => by
    have hstep : 0 ≤ (applyVOp s op).volume ∧ (applyVOp s op).volume ≤ 1 := by
      cases op with
      | vset v => exact clamp01_mem v
      | vadjust d => exact clamp01_mem (s.volume + d)
    exact volume_mem_applyVOps ops (applyVOp s op) hstep.1 hstep.2

/-- C10: `setVolume` stores the input clamped into `[0,1]`, `adjustVolume`
is `setVolume` of the current volume plus the delta, and consequently
after any sequence of the two operations starting from the initial player
the volume lies in `[0,1]`. -/
theorem C10_volume_clamp :
    (∀ (s : PlayerState) (v : ℚ), (setVolume s v).volume = max 0 (min 1 v)) ∧
    (∀ (s : PlayerState) (d : ℚ), adjustVolume s d = setVolume s (s.volume + d)) ∧
    (∀ ops : List VOp,
      0 ≤ (applyVOps initialPlayer ops).volume ∧ (applyVOps initialPlayer ops).volume ≤ 1) :=
  ⟨fun _ _ => rfl, fun _ _ => rfl,
    fun ops => volume_mem_applyVOps ops initialPlayer (by norm_num [initialPlayer])
      (by norm_num [initialPlayer])⟩

/-- Player in repeat-one mode with two queued tracks and the cursor on the
first: the state refuting the claim that explicit "next" replays under
repeat-one. -/
def c3state : PlayerState :=
  { queue := [t0, t1], queueIndex := 0, shuffle := false,
    repeatMode := RepeatMode.rone, volume := 1 }

/-- C3 (counterexample): the next buttons (src/public/app.js:117-122) call
`playNext()` directly, which never consults `repeatMode === 'one'`; so with
`repeatMode = 'one'`, queue `[t0,t1]` and cursor 0, an explicit "next"
moves the cursor to 1 instead of replaying index 0. -/
theorem C3_counterexample :
    c3state.repeatMode = RepeatMode.rone ∧ c3state.queueIndex = 0 ∧
      (playNext c3state []).queueIndex = 1 := by
  decide

/-- Single-draw outcome of `playRandom` on a queue of more than one track:
a draw equal to the cursor is rejected (state kept), any other draw moves
the cursor there. -/
theorem playRandom_single_draw (s : PlayerState) (hlen : 1 < s.queue.length) (d : ℕ) :
    (playRandom s [d]).queueIndex =
      if (d : ℤ) = s.queueIndex then s.queueIndex else (d : ℤ) := by
  simp only [playRandom, if_neg (by omega : ¬ s.queue.length ≤ 1), List.find?]
  by_cases hd : (d : ℤ) = s.queueIndex
  · simp [hd]
  · simp [hd]

/-- C3 (amended): on a natural track end, repeat-one replays the current
index without touching the state, and otherwise the track end delegates to
`playNext`; `playNext` (also the handler of an explicit "next", which
therefore skips the repeat-one check) selects a random index other than
the cursor when shuffle is on (no-op when the queue has at most one
entry, and each non-current index is produced by exactly one of the
`queue.length` equiprobable draws), else increments the cursor when not at
the last index, else wraps to 0 under repeat-all, else leaves the state
unchanged. -/
theorem C3_advance (s : PlayerState) (draws : List ℕ) :
    (s.repeatMode = RepeatMode.rone → handleTrackEnd s draws = s) ∧
    (s.repeatMode ≠ RepeatMode.rone → handleTrackEnd s draws = playNext s draws) ∧
    (s.shuffle = true → s.queue.length ≤ 1 → playNext s draws = s) ∧
    (s.shuffle = true → 1 < s.queue.length → (∀ d ∈ draws, d < s.queue.length) →
      (∃ d ∈ draws, (d : ℤ) ≠ s.queueIndex) →
      (playNext s draws).queue = s.queue ∧
      (playNext s draws).queueIndex ≠ s.queueIndex ∧
      0 ≤ (playNext s draws).queueIndex ∧
      (playNext s draws).queueIndex < (s.queue.length : ℤ)) ∧
    (s.shuffle = false → s.queueIndex < (s.queue.length : ℤ) - 1 →
      playNext s draws = { s with queueIndex := s.queueIndex + 1 }) ∧
    (s.shuffle = false → ¬ s.queueIndex < (s.queue.length : ℤ) - 1 →
      s.repeatMode = RepeatMode.rall → playNext s draws = { s with queueIndex := 0 }) ∧
    (s.shuffle = false → ¬ s.queueIndex < (s.queue.length : ℤ) - 1 →
      s.repeatMode ≠ RepeatMode.rall → playNext s draws = s) ∧
    (1 < s.queue.length → ∀ j : ℕ, j < s.queue.length → (j : ℤ) ≠ s.queueIndex →
      ((Finset.range s.queue.length).filter
        (fun d => (playRandom s [d]).queueIndex = (j : ℤ))).card = 1) := by
  refine ⟨?_, ?_, ?_, ?_, ?_, ?_, ?_, ?_⟩
  · intro h1; simp [handleTrackEnd, h1]
  · intro h1; simp [handleTrackEnd, h1]
  · intro hs hlen; simp [playNext, hs, playRandom, hlen]
  · intro hs hlen hbound hex
    cases ha : draws.find? (fun (d : ℕ) => ¬ ((d : ℤ) = s.queueIndex)) with
    | none =>
      exfalso
      obtain ⟨d, hdm, hdne⟩ := hex
      have hnp := List.find?_eq_none.mp ha d hdm
      simp at hnp
      exact hdne hnp
    | some a =>
      have hpa : ¬ ((a : ℤ) = s.queueIndex) := by simpa using List.find?_some ha
      have hma : a ∈ draws := List.mem_of_find?_eq_some ha
      have halt : a < s.queue.length := hbound a hma
      have hres : playNext s draws = { s with queueIndex := (a : ℤ) } := by
        simp only [playNext, hs, if_true, playRandom,
          if_neg (by omega : ¬ s.queue.length ≤ 1), ha]
      rw [hres]
      refine ⟨rfl, hpa, ?_, ?_⟩
      · show (0 : ℤ) ≤ (a : ℤ)
        omega
      · show (a : ℤ) < (s.queue.length : ℤ)
        exact_mod_cast halt
  · intro hs hlt; simp [playNext, hs, hlt]
  · intro hs hlt hall; simp [playNext, hs, hlt, hall]
  · intro hs hlt hnall; simp [playNext, hs, hlt, hnall]
  · intro hlen j hj hjne
    have hset : (Finset.range s.queue.length).filter
        (fun d => (playRandom s [d]).queueIndex = (j : ℤ)) = {j} := by
      ext d
      simp only [Finset.mem_filter, Finset.mem_range, Finset.mem_singleton,
        playRandom_single_draw s hlen d]
      constructor
      · rintro ⟨hd, heq⟩
        by_cases hcase : (d : ℤ) = s.queueIndex
        · rw [if_pos hcase] at heq; exact absurd heq.symm hjne
        · rw [if_neg hcase] at heq; exact_mod_cast heq
      · rintro rfl
        exact ⟨hj, by rw [if_neg hjne]⟩
    rw [hset, Finset.card_singleton]

/-- Player with shuffle on, used to exercise the random branch of the
amended advance claim. -/
def shufState : PlayerState :=
  { queue := [t0, t1, t2], queueIndex := 0, shuffle := true,
    repeatMode := RepeatMode.rnone, volume := 1 }

/-- Player at the last index with repeat-all, exercising the wrap branch. -/
def wrapState : PlayerState :=
  { queue := [t0, t1], queueIndex := 1, shuffle := false,
    repeatMode := RepeatMode.rall, volume := 1 }

/-- Player at the last index with repeat off, exercising the stop branch. -/
def stopState : PlayerState :=
  { queue := [t0, t1], queueIndex := 1, shuffle := false,
    repeatMode := RepeatMode.rnone, volume := 1 }

/-- C3 witness: each branch of the amended advance claim evaluated on a
concrete state. -/
theorem C3_advance_witness :
    (handleTrackEnd c3state [] = c3state) ∧
    ((playNext shufState [0, 2]).queueIndex ≠ shufState.queueIndex) ∧
    (playNext ex4 [] = { ex4 with queueIndex := 3 }) ∧
    (playNext wrapState [] = { wrapState with queueIndex := 0 }) ∧
    (playNext stopState [] = stopState) ∧
    (handleTrackEnd stopState [] = playNext stopState []) ∧
    (playNext { shufState with queue := [t0] } [] = { shufState with queue := [t0] }) ∧
    (((Finset.range shufState.queue.length).filter
        (fun d => (playRandom shufState [d]).queueIndex = (2 : ℤ))).card = 1) :=
  ⟨(C3_advance c3state []).1 (by decide),
    ((C3_advance shufState [0, 2]).2.2.2.1 (by decide) (by decide) (by decide)
      ⟨2, by decide, by decide⟩).2.1,
    (C3_advance ex4 []).2.2.2.2.1 (by decide) (by decide),
    (C3_advance wrapState []).2.2.2.2.2.1 (by decide) (by decide) (by decide),
    (C3_advance stopState []).2.2.2.2.2.2.1 (by decide) (by decide) (by decide),
    (C3_advance stopState []).2.1 (by decide),
    (C3_advance { shufState with queue := [t0] } []).2.2.1 (by decide) (by decide),
    (C3_advance shufState []).2.2.2.2.2.2.2 (by decide) 2 (by decide) (by decide)⟩

/-- An IndexedDB object store (and a JS `Map`) modelled as an association
list from keys to records; lookup returns the first binding. -/
def aget {K V : Type} [DecidableEq K] (l : List (K × V)) (k : K) : Option V :=
  (l.find? (fun p => p.1 = k)).map Prod.snd

/-- Keyed deletion (`store.delete(key)` / filtering a key out). -/
def adel {K V : Type} [DecidableEq K] (l : List (K × V)) (k : K) : List (K × V) :=
  l.filter (fun p => ¬ p.1 = k)

/-- Keyed upsert (`store.put(record)` under a fixed key): replaces any
binding of the key with the new record. -/
def aput {K V : Type} [DecidableEq K] (l : List (K × V)) (k : K) (v : V) : List (K × V) :=
  adel l k ++ [(k, v)]

theorem aget_cons {K V : Type} [DecidableEq K] (p : K × V) (l : List (K × V)) (k : K) :
    aget (p :: l) k = if p.1 = k then some p.2 else aget l k := by
  by_cases h : p.1 = k <;> simp [aget, List.find?, h]

theorem adel_cons {K V : Type} [DecidableEq K] (p : K × V) (l : List (K × V)) (k : K) :
    adel (p :: l) k = if p.1 = k then adel l k else p :: adel l k := by
  by_cases h : p.1 = k <;> simp [adel, List.filter_cons, h]

theorem aget_append {K V : Type} [DecidableEq K] (x y : List (K × V)) (k : K) :
    aget (x ++ y) k = (aget x k).or (aget y k) := by
  unfold aget
  rw [List.find?_append]
  cases x.find? (fun p => p.1 = k) <;> simp

theorem aget_adel {K V : Type} [DecidableEq K] (l : List (K × V)) (k k' : K) :
    aget (adel l k) k' = if k' = k then none else aget l k' := by
  induction l with
  | nil => simp [aget, adel]
  | cons p l ih =>
    rw [adel_cons]
    by_cases h : p.1 = k
    · rw [if_pos h, ih]
      by_cases h' : k' = k
      · simp [h']
      · rw [if_neg h', if_neg h', aget_cons,
          if_neg (by rw [h]; exact fun e => h' e.symm)]
    · rw [if_neg h, aget_cons, ih]
      by_cases h' : k' = k
      · by_cases h2 : p.1 = k'
        · exact absurd (h2.trans h') h
        · simp [h', h2, h]
      · by_cases h2 : p.1 = k' <;> simp [h', h2, aget_cons]

theorem aget_aput {K V : Type} [DecidableEq K] (l : List (K × V)) (k k' : K) (v : V) :
    aget (aput l k v) k' = if k' = k then some v else aget l k' := by
  unfold aput
  rw [aget_append, aget_adel]
  by_cases h : k' = k
  · simp [h, aget_cons]
  · have h2 : ¬ k = k' := fun e => h (Eq.symm e)
    simp only [if_neg h, aget_cons, if_neg h2]
    simp [aget]

/-- A JS value stored in a playlist record field. -/
inductive Val where
  | num (n : ℤ)
  | str (s : String)
  | tracks (ts : List Track)
  deriving DecidableEq, Repr

/-- A JS object: an association list from field names to values. -/
abbrev Obj := List (String × Val)

/-- JS object spread `{...a, ...b}`: the fields of `b` override those of
`a`. -/
def jsSpread (a b : Obj) : Obj :=
  a.filter (fun p => (aget b p.1).isNone) ++ b

/-- Filtering with a predicate implied by the search predicate does not
change the result of `find?`. -/
theorem find?_filter_of_imp {α : Type} (l : List α) (p q : α → Bool)
    (himp : ∀ x, p x = true → q x = true) :
    (l.filter q).find? p = l.find? p := by
  induction l with
  | nil => rfl
  | cons x l ih =>
    by_cases hq : q x = true
    · by_cases hp : p x = true <;> simp [List.filter_cons, List.find?, hq, hp, ih]
    · have hp : p x = false := by
        cases hpx : p x
        · rfl
        · exact absurd (himp x hpx) hq
      simp [List.filter_cons, List.find?, hq, hp, ih]

/-- Field lookup on a spread: `b`'s binding wins, else `a`'s. -/
theorem aget_jsSpread (a b : Obj) (k : String) :
    aget (jsSpread a b) k = (aget b k).or (aget a k) := by
  unfold jsSpread
  rw [aget_append]
  cases hb : aget b k with
  | some v =>
    have hfa : aget (a.filter (fun p => (aget b p.1).isNone)) k = none := by
      unfold aget
      rw [List.find?_eq_none.mpr]
      · rfl
      · intro x hx
        have hq := List.of_mem_filter hx
        simp only [decide_eq_true_eq]
        intro hxk
        unfold aget at hb
        rw [hxk, hb] at hq
        simp at hq
    rw [hfa]
    simp
  | none =>
    have hfa : aget (a.filter (fun p => (aget b p.1).isNone)) k = aget a k := by
      unfold aget
      rw [find?_filter_of_imp]
      intro x hx
      simp only [decide_eq_true_eq] at hx
      unfold aget at hb
      rw [hx, hb]
      simp
    rw [hfa]
    cases aget a k <;> simp

/-- Error taxonomy of the persistent store, from the spec's §7. -/
inductive DBErr where
  | notFound
  | unavailable
  deriving DecidableEq, Repr

/-- The playlists object store: auto-increment integer keys to records. -/
abbrev PlaylistStore := List (ℤ × Obj)

/-- The next auto-increment key: one past the largest key in the store. -/
def freshKey (st : PlaylistStore) : ℤ :=
  (st.map Prod.fst).foldr max 0 + 1

/-- Members of a list are bounded by a fold of `max`. -/
theorem mem_le_foldr_max (l : List ℤ) (a b : ℤ) (h : a ∈ l) : a ≤ l.foldr max b := by
  induction l with
  | nil => cases h
  | cons x l ih =>
    rcases List.mem_cons.mp h with h | h
    · rw [h]; exact le_max_left _ _
    · exact (ih h).trans (le_max_right _ _)

/-- The auto-increment key is absent from the store. -/
theorem aget_freshKey (st : PlaylistStore) : aget st (freshKey st) = none := by
  unfold aget
  rw [List.find?_eq_none.mpr]
  · rfl
  · intro p hp
    simp only [decide_eq_true_eq]
    intro hpk
    have hle : p.1 ≤ (st.map Prod.fst).foldr max 0 :=
      mem_le_foldr_max _ _ _ (List.mem_map.mpr ⟨p, hp, rfl⟩)
    rw [hpk] at hle
    unfold freshKey at hle
    omega

/-- `store.put(record)` on a store with `keyPath: 'id'` and
`autoIncrement: true`: a record carrying a numeric `id` replaces the
binding of that key; otherwise a fresh key is generated and injected into
the stored record.  Returns the store and the key the record landed on. -/
def storePut (st : PlaylistStore) (o : Obj) : PlaylistStore × ℤ :=
  match aget o "id" with
  | some (Val.num k) => (aput st k o, k)
  | _ =>
    let k := freshKey st
    (aput st k (jsSpread o [("id", Val.num k)]), k)

/-- `getPlaylist(id)` (src/server/database.js:137-146): a plain `get`,
resolving `undefined` (here `none`) when the key is absent. -/
def getPlaylist (st : PlaylistStore) (id : ℤ) : Option Obj :=
  aget st id

/-- The record written by `updatePlaylist`:
`{...playlist, ...updates, modified: Date.now()}`. -/
def mergedRec (playlist updates : Obj) (now : ℤ) : Obj :=
  jsSpread (jsSpread playlist updates) [("modified", Val.num now)]

/-- `updatePlaylist(id, updates)` (src/server/database.js:148-164): reads
the record (possibly `undefined`, spread of which contributes no fields),
spreads `updates` and a fresh `modified` over it, and `put`s the result.
No existence check is performed. -/
def updatePlaylist (st : PlaylistStore) (id : ℤ) (updates : Obj) (now : ℤ) :
    Except DBErr (PlaylistStore × ℤ) :=
  let playlist := (getPlaylist st id).getD []
  Except.ok (storePut st (mergedRec playlist updates now))

/-- The record stored by `updatePlaylist` for an absent id: the merge of
no fields with the updates and the fresh `modified`, with the generated
auto-increment key injected by the store. -/
def newRec (updates : Obj) (now : ℤ) (st : PlaylistStore) : Obj :=
  jsSpread (mergedRec [] updates now) [("id", Val.num (freshKey st))]

/-- Update with no matching playlist, for the C2 counterexample. -/
def c2updates : Obj := [("name", Val.str "renamed")]

/-- C2 (counterexample): on the empty playlists store, id 1 is absent,
yet `updatePlaylist(1, updates)` succeeds — it never yields `NotFound`;
the put lands a brand-new record in the store. -/
theorem C2_counterexample :
    getPlaylist ([] : PlaylistStore) 1 = none ∧
      updatePlaylist [] 1 c2updates 99 ≠ Except.error DBErr.notFound ∧
      (∃ r, updatePlaylist [] 1 c2updates 99 = Except.ok r) := by
  refine ⟨rfl, ?_, ⟨_, rfl⟩⟩
  intro h
  have hok : updatePlaylist [] 1 c2updates 99 =
      Except.ok (storePut [] (mergedRec [] c2updates 99)) := rfl
  rw [hok] at h
  exact Except.noConfusion h

/-- C2 (amended): `updatePlaylist(id, updates)` performs no existence
check and never fails with `NotFound`.  When a playlist with key `id`
exists (carrying its own key in its `id` field, as IndexedDB maintains),
it stores back, under the same key, the record whose `modified` field is
the current time and whose other fields are the updates' where present and
the existing record's otherwise.  When `id` is absent, it inserts a fresh
record made of the updates plus `modified = now` under a newly generated
key. -/
theorem C2_updatePlaylist (st : PlaylistStore) (id : ℤ) (updates : Obj) (now : ℤ) :
    (∃ r, updatePlaylist st id updates now = Except.ok r) ∧
    (∀ p, getPlaylist st id = some p → aget p "id" = some (Val.num id) →
      aget updates "id" = none →
      updatePlaylist st id updates now =
        Except.ok (aput st id (mergedRec p updates now), id) ∧
      getPlaylist (aput st id (mergedRec p updates now)) id =
        some (mergedRec p updates now) ∧
      aget (mergedRec p updates now) "modified" = some (Val.num now) ∧
      (∀ k, k ≠ "modified" →
        aget (mergedRec p updates now) k = (aget updates k).or (aget p k))) ∧
    (getPlaylist st id = none → aget updates "id" = none →
      updatePlaylist st id updates now =
        Except.ok (aput st (freshKey st) (newRec updates now st), freshKey st) ∧
      getPlaylist st (freshKey st) = none ∧
      getPlaylist (aput st (freshKey st) (newRec updates now st)) (freshKey st) =
        some (newRec updates now st) ∧
      aget (newRec updates now st) "id" = some (Val.num (freshKey st)) ∧
      aget (newRec updates now st) "modified" = some (Val.num now) ∧
      (∀ k, k ≠ "modified" → k ≠ "id" →
        aget (newRec updates now st) k = aget updates k)) := by
  have hmodid : aget [("modified", Val.num now)] "id" = none := by
    simp [aget, List.find?]
  have hmodmod : aget [("modified", Val.num now)] "modified" = some (Val.num now) := by
    simp [aget, List.find?]
  have hmodk : ∀ k, k ≠ "modified" → aget [("modified", Val.num now)] k = none := by
    intro k hk
    simp [aget, List.find?, Ne.symm hk]
  refine ⟨⟨_, rfl⟩, ?_, ?_⟩
  · intro p hp hpid hupdid
    have hid : aget (mergedRec p updates now) "id" = some (Val.num id) := by
      unfold mergedRec
      rw [aget_jsSpread, aget_jsSpread, hmodid, hupdid, hpid]
      rfl
    have hrun : updatePlaylist st id updates now =
        Except.ok (aput st id (mergedRec p updates now), id) := by
      unfold updatePlaylist
      rw [hp]
      simp only [Option.getD_some]
      unfold storePut
      rw [hid]
    refine ⟨hrun, ?_, ?_, ?_⟩
    · unfold getPlaylist
      rw [aget_aput, if_pos rfl]
    · unfold mergedRec
      rw [aget_jsSpread, hmodmod]
      rfl
    · intro k hk
      unfold mergedRec
      rw [aget_jsSpread, aget_jsSpread, hmodk k hk]
      rfl
  · intro hp hupdid
    have hid : aget (mergedRec [] updates now) "id" = none := by
      unfold mergedRec
      rw [aget_jsSpread, aget_jsSpread, hmodid, hupdid]
      rfl
    have hrun : updatePlaylist st id updates now =
        Except.ok (aput st (freshKey st) (newRec updates now st), freshKey st) := by
      unfold updatePlaylist
      rw [hp]
      simp only [Option.getD_none]
      unfold storePut
      rw [hid]
      rfl
    have hidk : aget [("id", Val.num (freshKey st))] "id" = some (Val.num (freshKey st)) := by
      simp [aget, List.find?]
    have hidmod : aget [("id", Val.num (freshKey st))] "modified" = none := by
      simp [aget, List.find?]
    refine ⟨hrun, aget_freshKey st, ?_, ?_, ?_, ?_⟩
    · unfold getPlaylist
      rw [aget_aput, if_pos rfl]
    · unfold newRec
      rw [aget_jsSpread, hidk]
      rfl
    · unfold newRec
      rw [aget_jsSpread, hidmod]
      unfold mergedRec
      rw [aget_jsSpread, hmodmod]
      rfl
    · intro k hkmod hkid
      have hidke : aget [("id", Val.num (freshKey st))] k = none := by
        simp [aget, List.find?, Ne.symm hkid]
      unfold newRec
      rw [aget_jsSpread, hidke]
      unfold mergedRec
      rw [aget_jsSpread, aget_jsSpread, hmodk k hkmod]
      show (Option.none.or ((aget updates k).or (aget [] k))) = _
      cases aget updates k <;> rfl

/-- Concrete existing playlist record for the C2 witness. -/
def p1 : Obj :=
  [("id", Val.num 1), ("name", Val.str "Mix"), ("description", Val.str ""),
   ("tracks", Val.tracks [t0]), ("created", Val.num 5), ("modified", Val.num 5)]

/-- One-record playlists store for the C2 witness. -/
def st1 : PlaylistStore := [(1, p1)]

/-- Update payload for the C2 witness. -/
def upd1 : Obj := [("name", Val.str "Renamed")]

/-- C2 witness: updating an existing playlist merges the update over it,
stamps the new `modified`, and keeps untouched fields. -/
theorem C2_updatePlaylist_witness :
    updatePlaylist st1 1 upd1 9 = Except.ok (aput st1 1 (mergedRec p1 upd1 9), 1) ∧
    aget (mergedRec p1 upd1 9) "modified" = some (Val.num 9) ∧
    aget (mergedRec p1 upd1 9) "name" = some (Val.str "Renamed") ∧
    aget (mergedRec p1 upd1 9) "created" = some (Val.num 5) := by
  have h := (C2_updatePlaylist st1 1 upd1 9).2.1 p1 (by decide) (by decide) (by decide)
  refine ⟨h.1, h.2.2.1, ?_, ?_⟩
  · rw [h.2.2.2 "name" (by decide)]; decide
  · rw [h.2.2.2 "created" (by decide)]; decide

/-- An audio payload; only its byte size is observable to the download
metadata path (`blob.size`). -/
structure Blob where
  size : ℤ
  deriving DecidableEq, Repr

/-- Record of the `offlineTracks` store: track metadata plus the raw
audio blob and the write time (the code spreads the track's fields and
overrides `id` with the composite key; the key is carried by the store). -/
structure OfflineRec where
  track : Track
  blob : Blob
  timestamp : ℤ
  deriving DecidableEq, Repr

/-- Record of the `downloads` store: track metadata, blob byte size, and
the write time. -/
structure DownloadRec where
  track : Track
  size : ℤ
  timestamp : ℤ
  deriving DecidableEq, Repr

/-- The two linked object stores touched by the download feature. -/
structure DownloadsDB where
  offlineTracks : List (String × OfflineRec)
  downloads : List (String × DownloadRec)
  deriving DecidableEq, Repr

/-- A request issued inside a `['offlineTracks', 'downloads']` readwrite
transaction. -/
inductive DLReq where
  | putOffline (k : String) (r : OfflineRec)
  | putDownload (k : String) (r : DownloadRec)
  | delOffline (k : String)
  | delDownload (k : String)
  deriving DecidableEq, Repr

/-- Effect of one request on the two stores. -/
def applyDLReq (db : DownloadsDB) : DLReq → DownloadsDB
  | DLReq.putOffline k r => { db with offlineTracks := aput db.offlineTracks k r }
  | DLReq.putDownload k r => { db with downloads := aput db.downloads k r }
  | DLReq.delOffline k => { db with offlineTracks := adel db.offlineTracks k }
  | DLReq.delDownload k => { db with downloads := adel db.downloads k }

/-- A transaction abort, surfaced to the caller through `onerror` as one
rejection. -/
inductive TxnErr where
  | aborted
  deriving DecidableEq, Repr

/-- An IndexedDB readwrite transaction over the two stores: the queued
requests either all apply (then `oncomplete` fires) or, if the storage
engine fails any of them (the `faults` oracle says which positions fail),
the transaction aborts, is rolled back in full, and `onerror` delivers a
single error. -/
def runTxn (db : DownloadsDB) (reqs : List DLReq) (faults : List Bool) :
    DownloadsDB × Option TxnErr :=
  if (faults.take reqs.length).any id then (db, some TxnErr.aborted)
  else (reqs.foldl applyDLReq db, none)

/-- The composite identity key `` `${track.source}_${track.id}` ``. -/
def trackKey (track : Track) : String :=
  track.source ++ "_" ++ track.id

/-- `saveOfflineTrack(track, blob)` (src/server/database.js:362-392): one
transaction carrying the blob put on `offlineTracks` and the metadata put
on `downloads`. -/
def saveOfflineTrack (db : DownloadsDB) (track : Track) (blob : Blob) (now : ℤ)
    (faults : List Bool) : DownloadsDB × Option TxnErr :=
  runTxn db
    [DLReq.putOffline (trackKey track) ⟨track, blob, now⟩,
     DLReq.putDownload (trackKey track) ⟨track, blob.size, now⟩] faults

/-- `deleteDownload(trackId)` (src/server/database.js:416-428): one
transaction deleting the key from both stores. -/
def deleteDownload (db : DownloadsDB) (trackId : String)
    (faults : List Bool) : DownloadsDB × Option TxnErr :=
  runTxn db [DLReq.delOffline trackId, DLReq.delDownload trackId] faults

/-- C4: the download record and the offline blob are written — and
deleted — as one atomic unit.  Whatever subset of the two writes the
storage engine fails, a failed transaction leaves both collections exactly
as they were (no orphaned record, no orphaned blob) and surfaces a single
error; a successful one updates both. -/
theorem C4_atomic_dual_write (db : DownloadsDB) (track : Track) (blob : Blob)
    (now : ℤ) (trackId : String) (faults : List Bool) :
    ((saveOfflineTrack db track blob now faults).2 = some TxnErr.aborted →
      (saveOfflineTrack db track blob now faults).1 = db) ∧
    ((saveOfflineTrack db track blob now faults).2 = none →
      aget (saveOfflineTrack db track blob now faults).1.offlineTracks (trackKey track)
          = some ⟨track, blob, now⟩ ∧
      aget (saveOfflineTrack db track blob now faults).1.downloads (trackKey track)
          = some ⟨track, blob.size, now⟩) ∧
    ((deleteDownload db trackId faults).2 = some TxnErr.aborted →
      (deleteDownload db trackId faults).1 = db) ∧
    ((deleteDownload db trackId faults).2 = none →
      aget (deleteDownload db trackId faults).1.offlineTracks trackId = none ∧
      aget (deleteDownload db trackId faults).1.downloads trackId = none) := by
  by_cases hf : (faults.take 2).any id = true
  · refine ⟨fun _ => ?_, fun h => ?_, fun _ => ?_, fun h => ?_⟩ <;>
      simp [saveOfflineTrack, deleteDownload, runTxn, hf] at *
  · refine ⟨fun h => ?_, fun _ => ?_, fun h => ?_, fun _ => ?_⟩
    · simp [saveOfflineTrack, runTxn, hf] at h
    · simp [saveOfflineTrack, runTxn, hf, applyDLReq, aget_aput]
    · simp [deleteDownload, runTxn, hf] at h
    · simp [deleteDownload, runTxn, hf, applyDLReq, aget_adel]

/-- Empty download stores for the C4 witness. -/
def db0 : DownloadsDB := ⟨[], []⟩

/-- Download stores already holding `t0`, for the C4 delete witness. -/
def db1 : DownloadsDB :=
  ⟨[(trackKey t0, ⟨t0, ⟨4⟩, 7⟩)], [(trackKey t0, ⟨t0, 4, 7⟩)]⟩

/-- C4 witness: with the second of the two linked writes failing, nothing
persists; with no fault, both records persist; deletion behaves dually. -/
theorem C4_atomic_dual_write_witness :
    (saveOfflineTrack db0 t0 ⟨4⟩ 7 [false, true]).1 = db0 ∧
    aget (saveOfflineTrack db0 t0 ⟨4⟩ 7 []).1.offlineTracks (trackKey t0)
        = some ⟨t0, ⟨4⟩, 7⟩ ∧
    (deleteDownload db1 (trackKey t0) [false, true]).1 = db1 ∧
    aget (deleteDownload db1 (trackKey t0) []).1.downloads (trackKey t0) = none :=
  ⟨(C4_atomic_dual_write db0 t0 ⟨4⟩ 7 (trackKey t0) [false, true]).1 (by decide),
    ((C4_atomic_dual_write db0 t0 ⟨4⟩ 7 (trackKey t0) []).2.1 (by decide)).1,
    (C4_atomic_dual_write db1 t0 ⟨4⟩ 7 (trackKey t0) [false, true]).2.2.1 (by decide),
    ((C4_atomic_dual_write db1 t0 ⟨4⟩ 7 (trackKey t0) []).2.2.2 (by decide)).2⟩

/-- A row of the `searchHistory` store: auto-increment id, query text,
insertion time. -/
structure SearchEntry where
  id : ℕ
  query : String
  timestamp : ℤ
  deriving DecidableEq, Repr

/-- `addToSearchHistory(query)` (src/server/database.js:307-321): appends
a `{query, timestamp}` row under a fresh auto-increment id.  The store is
kept in insertion order, which is also ascending-timestamp order (the
order the `timestamp` index yields, ties broken by primary key). -/
def addToSearchHistory (store : List SearchEntry) (q : String) (now : ℤ) :
    List SearchEntry :=
  store ++ [⟨store.length, q, now⟩]

/-- The read-path de-duplication loop of `getSearchHistory`: walk the
(already reversed) rows, keeping a row only when its query text was not
seen yet. -/
def dedupByQuery : List SearchEntry → List String → List SearchEntry
  | [], _ => []
  | e :: rest, seen =>
    if e.query ∈ seen then dedupByQuery rest seen
    else e :: dedupByQuery rest (e.query :: seen)

/-- `getSearchHistory(limit)` (src/server/database.js:323-348, default
limit 10): reverse the timestamp-ordered rows to most-recent-first,
de-duplicate by query keeping the first (= most recent) occurrence, and
truncate to `limit`. -/
def getSearchHistory (store : List SearchEntry) (limit : ℕ) : List SearchEntry :=
  (dedupByQuery store.reverse []).take limit

/-- The de-duplication loop keeps pairwise-distinct queries unseen so far,
keeps exactly the first occurrence of each kept query, and preserves the
row order. -/
theorem dedupByQuery_spec : ∀ (l : List SearchEntry) (seen : List String),
    ((dedupByQuery l seen).map SearchEntry.query).Nodup ∧
    (∀ e ∈ dedupByQuery l seen, e.query ∉ seen ∧
      l.find? (fun x => x.query = e.query) = some e) ∧
    (dedupByQuery l seen).Sublist l
  | [], seen => by simp [dedupByQuery]
  | e :: rest, seen => by
    by_cases h : e.query ∈ seen
    · obtain ⟨ih1, ih2, ih3⟩ := dedupByQuery_spec rest seen
      rw [dedupByQuery, if_pos h]
      refine ⟨ih1, ?_, ih3.trans (List.sublist_cons_self e rest)⟩
      intro x hx
      obtain ⟨hx1, hx2⟩ := ih2 x hx
      have hne : ¬ e.query = x.query := fun hq => hx1 (hq ▸ h)
      refine ⟨hx1, ?_⟩
      rw [List.find?, decide_eq_false hne]
      exact hx2
    · obtain ⟨ih1, ih2, ih3⟩ := dedupByQuery_spec rest (e.query :: seen)
      rw [dedupByQuery, if_neg h]
      refine ⟨?_, ?_, ih3.cons₂ e⟩
      · rw [List.map_cons, List.nodup_cons]
        refine ⟨?_, ih1⟩
        intro hmem
        obtain ⟨x, hx, hxq⟩ := List.mem_map.mp hmem
        exact (ih2 x hx).1 (hxq ▸ List.mem_cons_self _ _)
      · intro x hx
        rcases List.mem_cons.mp hx with rfl | hx
        · exact ⟨h, by rw [List.find?, decide_eq_true rfl]⟩
        · obtain ⟨hx1, hx2⟩ := ih2 x hx
          have hxe : ¬ x.query = e.query := fun hq => hx1 (hq ▸ List.mem_cons_self _ _)
          have hne : ¬ e.query = x.query := fun hq => hxe hq.symm
          refine ⟨fun hs => hx1 (List.mem_cons_of_mem _ hs), ?_⟩
          rw [List.find?, decide_eq_false hne]
          exact hx2

/-- C8: `getSearchHistory(limit)` returns the stored queries
de-duplicated by query text — each distinct query at most once, each
returned row being the most recent stored occurrence of its query —
ordered most-recent-first and truncated to at most `limit` rows. -/
theorem C8_search_history (store : List SearchEntry) (limit : ℕ) :
    ((getSearchHistory store limit).map SearchEntry.query).Nodup ∧
    (getSearchHistory store limit).length ≤ limit ∧
    (getSearchHistory store limit).Sublist store.reverse ∧
    (∀ e ∈ getSearchHistory store limit,
      store.reverse.find? (fun x => x.query = e.query) = some e) := by
  obtain ⟨h1, h2, h3⟩ := dedupByQuery_spec store.reverse []
  refine ⟨?_, ?_, ?_, ?_⟩
  · exact h1.sublist ((List.take_sublist _ _).map SearchEntry.query)
  · exact (List.length_take_le _ _)
  · exact (List.take_sublist _ _).trans h3
  · intro e he
    exact (h2 e (List.mem_of_mem_take he)).2

/-- The store after inserting queries "a", "b", "a", "c" in order. -/
def store4 : List SearchEntry :=
  addToSearchHistory (addToSearchHistory (addToSearchHistory
    (addToSearchHistory [] "a" 1) "b" 2) "a" 3) "c" 4

/-- C8 witness: the claim's example — after inserting "a","b","a","c",
reading with limit 10 returns queries ["c","a","b"], and the returned "a"
row is the later of the two stored "a" rows. -/
theorem C8_search_history_witness :
    (getSearchHistory store4 10).map SearchEntry.query = ["c", "a", "b"] ∧
    ((getSearchHistory store4 10).map SearchEntry.query).Nodup ∧
    store4.reverse.find?
        (fun x => x.query = SearchEntry.query ⟨2, "a", 3⟩) = some ⟨2, "a", 3⟩ :=
  ⟨by decide, (C8_search_history store4 10).1,
    (C8_search_history store4 10).2.2.2 ⟨2, "a", 3⟩ (by decide)⟩

/-- The fixed cache TTL: `5 * 60 * 1000` milliseconds
(src/api-manager.js:6). -/
def cacheTimeout : ℤ := 5 * 60 * 1000

/-- A cache slot: `{ data, timestamp }` as stored by `fetchWithCache`. -/
structure CacheEntry (V : Type) where
  data : V
  timestamp : ℤ
  deriving DecidableEq

/-- The in-memory `Map` used by `APIManager`. -/
abbrev Cache (V : Type) := List (String × CacheEntry V)

/-- Observable outcome of one `fetchWithCache` call: the value returned
or the error propagated, the cache afterwards, and whether the underlying
fetch (the loader) was invoked. -/
structure FetchOutcome (V : Type) where
  result : Except String V
  cache : Cache V
  loaderInvoked : Bool

/-- The cache key `` `${url}_${JSON.stringify(options)}` ``
(src/api-manager.js:11), with the serialized options as a string. -/
def mkCacheKey (url opts : String) : String :=
  url ++ "_" ++ opts

/-- The fetch half of `fetchWithCache`: invoke the loader; on success
store `{data, timestamp: now}` and return the data, on failure cache
nothing and propagate the error. -/
def fetchLoad {V : Type} (cache : Cache V) (cacheKey : String) (now : ℤ)
    (loader : Except String V) : FetchOutcome V :=
  match loader with
  | Except.ok data => ⟨Except.ok data, aput cache cacheKey ⟨data, now⟩, true⟩
  | Except.error e => ⟨Except.error e, cache, true⟩

/-- `fetchWithCache(url, options)` (src/api-manager.js:10-45): serve from
the cache when an entry for the key exists and is younger than the TTL;
otherwise fetch through the loader. -/
def fetchWithCache {V : Type} (cache : Cache V) (url opts : String) (now : ℤ)
    (loader : Except String V) : FetchOutcome V :=
  match aget cache (mkCacheKey url opts) with
  | some cached =>
    if now - cached.timestamp < cacheTimeout then
      ⟨Except.ok cached.data, cache, false⟩
    else fetchLoad cache (mkCacheKey url opts) now loader
  | none => fetchLoad cache (mkCacheKey url opts) now loader

/-- Unfolding of `fetchWithCache` when the key is cached. -/
theorem fetchWithCache_of_some {V : Type} (cache : Cache V) (url opts : String)
    (now : ℤ) (loader : Except String V) (cached : CacheEntry V)
    (h : aget cache (mkCacheKey url opts) = some cached) :
    fetchWithCache cache url opts now loader =
      if now - cached.timestamp < cacheTimeout then
        ⟨Except.ok cached.data, cache, false⟩
      else fetchLoad cache (mkCacheKey url opts) now loader := by
  unfold fetchWithCache
  rw [h]

/-- Unfolding of `fetchWithCache` when the key is not cached. -/
theorem fetchWithCache_of_none {V : Type} (cache : Cache V) (url opts : String)
    (now : ℤ) (loader : Except String V)
    (h : aget cache (mkCacheKey url opts) = none) :
    fetchWithCache cache url opts now loader =
      fetchLoad cache (mkCacheKey url opts) now loader := by
  unfold fetchWithCache
  rw [h]

/-- C5: while a stored entry for the key is younger than the 5-minute
TTL, `fetchWithCache` returns the stored value without invoking the
loader (and without touching the cache); once the entry's age reaches or
passes the TTL, the loader is invoked again. -/
theorem C5_cache_ttl {V : Type} (cache : Cache V) (url opts : String) (now : ℤ)
    (loader : Except String V) (cached : CacheEntry V)
    (h : aget cache (mkCacheKey url opts) = some cached) :
    (now - cached.timestamp < cacheTimeout →
      fetchWithCache cache url opts now loader =
        ⟨Except.ok cached.data, cache, false⟩) ∧
    (cacheTimeout ≤ now - cached.timestamp →
      (fetchWithCache cache url opts now loader).loaderInvoked = true) := by
  constructor
  · intro hfresh
    rw [fetchWithCache_of_some cache url opts now loader cached h, if_pos hfresh]
  · intro hstale
    rw [fetchWithCache_of_some cache url opts now loader cached h,
      if_neg (not_lt.mpr hstale)]
    cases loader <;> rfl

/-- C5 witness: an entry stored at time 0 is served at time 1000 without
the loader; at time 300000 (= TTL) the loader runs again. -/
theorem C5_cache_ttl_witness :
    fetchWithCache [(mkCacheKey "u" "{}", ⟨(42 : ℤ), 0⟩)] "u" "{}" 1000 (Except.ok 7) =
      ⟨Except.ok 42, [(mkCacheKey "u" "{}", ⟨(42 : ℤ), 0⟩)], false⟩ ∧
    (fetchWithCache [(mkCacheKey "u" "{}", ⟨(42 : ℤ), 0⟩)] "u" "{}" 300000
      (Except.ok 7)).loaderInvoked = true :=
  ⟨(C5_cache_ttl [(mkCacheKey "u" "{}", ⟨(42 : ℤ), 0⟩)] "u" "{}" 1000 (Except.ok 7)
      ⟨42, 0⟩ (by decide)).1 (by decide),
    (C5_cache_ttl [(mkCacheKey "u" "{}", ⟨(42 : ℤ), 0⟩)] "u" "{}" 300000 (Except.ok 7)
      ⟨42, 0⟩ (by decide)).2 (by decide)⟩

/-- C9: when the loader invoked by `fetchWithCache` fails, the failure
propagates, the cache is left exactly as it was (no entry is stored for
the key), and any later call for the same key invokes the loader again —
a failure is never served from cache. -/
theorem C9_no_failure_caching {V : Type} (cache : Cache V) (url opts : String)
    (t1 t2 : ℤ) (err : String) (loader2 : Except String V)
    (hinv : (fetchWithCache cache url opts t1 (Except.error err)).loaderInvoked = true)
    (hle : t1 ≤ t2) :
    (fetchWithCache cache url opts t1 (Except.error err)).result = Except.error err ∧
    (fetchWithCache cache url opts t1 (Except.error err)).cache = cache ∧
    (fetchWithCache (fetchWithCache cache url opts t1 (Except.error err)).cache
        url opts t2 loader2).loaderInvoked = true := by
  cases hk : aget cache (mkCacheKey url opts) with
  | none =>
    have h1 : fetchWithCache cache url opts t1 (Except.error err) =
        ⟨Except.error err, cache, true⟩ :=
      fetchWithCache_of_none cache url opts t1 (Except.error err) hk
    refine ⟨by rw [h1], by rw [h1], ?_⟩
    rw [h1]
    show (fetchWithCache cache url opts t2 loader2).loaderInvoked = true
    rw [fetchWithCache_of_none cache url opts t2 loader2 hk]
    cases loader2 <;> rfl
  | some cached =>
    have hstale : ¬ t1 - cached.timestamp < cacheTimeout := by
      intro hfresh
      have h1 : fetchWithCache cache url opts t1 (Except.error err) =
          ⟨Except.ok cached.data, cache, false⟩ := by
        rw [fetchWithCache_of_some cache url opts t1 (Except.error err) cached hk,
          if_pos hfresh]
      rw [h1] at hinv
      exact Bool.noConfusion hinv
    have h1 : fetchWithCache cache url opts t1 (Except.error err) =
        ⟨Except.error err, cache, true⟩ := by
      rw [fetchWithCache_of_some cache url opts t1 (Except.error err) cached hk,
        if_neg hstale]
      rfl
    refine ⟨by rw [h1], by rw [h1], ?_⟩
    rw [h1]
    show (fetchWithCache cache url opts t2 loader2).loaderInvoked = true
    rw [fetchWithCache_of_some cache url opts t2 loader2 cached hk, if_neg (by omega)]
    cases loader2 <;> rfl

/-- C9 witness: on the empty cache a failing load at time 0 caches
nothing and a retry at time 1 invokes the loader again. -/
theorem C9_no_failure_caching_witness :
    (fetchWithCache ([] : Cache ℤ) "u" "{}" 0 (Except.error "boom")).result
        = Except.error "boom" ∧
    (fetchWithCache ([] : Cache ℤ) "u" "{}" 0 (Except.error "boom")).cache = [] ∧
    (fetchWithCache (fetchWithCache ([] : Cache ℤ) "u" "{}" 0
        (Except.error "boom")).cache "u" "{}" 1 (Except.ok 7)).loaderInvoked = true :=
  C9_no_failure_caching [] "u" "{}" 0 1 "boom" (Except.ok 7) (by decide) (by decide)

/-- `mergeResults(results)` (src/api-manager.js:359-376): loop
`i = 0 .. maxLength-1`, and at each step push the i-th result of each
provider (youtube, soundcloud, audius, in that order) when it exists. -/
def mergeResults (yt sc au : List Track) : List Track :=
  (List.range (max yt.length (max sc.length au.length))).flatMap
    (fun i => yt[i]?.toList ++ sc[i]?.toList ++ au[i]?.toList)

/-- The source filter argument of `search(query, source)`. -/
inductive SourceFilter where
  | all
  | youtube
  | soundcloud
  | audius
  deriving DecidableEq, Repr

/-- Outcome of one provider adapter (`searchYouTube` etc.,
src/api-manager.js:75-139): each adapter catches its own request failure
and resolves with an empty list. -/
def recover (r : Except String (List Track)) : List Track :=
  match r with
  | Except.ok l => l
  | Except.error _ => []

/-- `search(query, source)` (src/api-manager.js:48-72): run the selected
providers (all of them for 'all'), each settling with its result list or
`[]` on failure, then merge.  The call itself always produces a list. -/
def search (source : SourceFilter)
    (yt sc au : Except String (List Track)) : List Track :=
  let rYt := if source = SourceFilter.all ∨ source = SourceFilter.youtube then
    recover yt else []
  let rSc := if source = SourceFilter.all ∨ source = SourceFilter.soundcloud then
    recover sc else []
  let rAu := if source = SourceFilter.all ∨ source = SourceFilter.audius then
    recover au else []
  mergeResults rYt rSc rAu

/-- Modelled from the spec: round-robin interleaving as the spec words it
— take one item from each input list per round, in source order, skipping
exhausted lists, until all lists are exhausted. -/
def roundRobinSpec (a b c : List Track) : List Track :=
  if a = [] ∧ b = [] ∧ c = [] then []
  else (a.take 1 ++ b.take 1 ++ c.take 1) ++ roundRobinSpec a.tail b.tail c.tail
termination_by a.length + b.length + c.length
decreasing_by
  rename_i h
  have hne : a ≠ [] ∨ b ≠ [] ∨ c ≠ [] := by tauto
  simp only [List.length_tail]
  rcases hne with hne | hne | hne <;> have := List.length_pos.mpr hne <;> omega

/-- The head of the indexed-access view: the 0-th optional element as a
list is `take 1`. -/
theorem getElem?_zero_toList {α : Type} (l : List α) : l[0]?.toList = l.take 1 := by
  cases l <;> simp

/-- Successor indexing steps into the tail. -/
theorem getElem?_succ_tail {α : Type} (l : List α) (i : ℕ) : l[i + 1]? = l.tail[i]? := by
  cases l <;> simp

/-- One round of the merge loop: when some provider still has results,
the loop emits the three heads and continues on the tails. -/
theorem mergeResults_cons (a b c : List Track) (h : ¬ (a = [] ∧ b = [] ∧ c = [])) :
    mergeResults a b c =
      (a.take 1 ++ b.take 1 ++ c.take 1) ++ mergeResults a.tail b.tail c.tail := by
  have hpos : 1 ≤ max a.length (max b.length c.length) := by
    have hne : a ≠ [] ∨ b ≠ [] ∨ c ≠ [] := by tauto
    rcases hne with hne | hne | hne <;> have := List.length_pos.mpr hne <;> omega
  have hm : max a.length (max b.length c.length) =
      max a.tail.length (max b.tail.length c.tail.length) + 1 := by
    simp only [List.length_tail]
    omega
  unfold mergeResults
  rw [hm, List.range_succ_eq_map, List.flatMap_cons, getElem?_zero_toList,
    getElem?_zero_toList, getElem?_zero_toList, List.flatMap_map]
  congr 1
  exact List.flatMap_congr (fun i _ => by
    rw [getElem?_succ_tail, getElem?_succ_tail, getElem?_succ_tail])

/-- The code's index-stepping merge computes exactly the spec's
round-robin interleave. -/
theorem mergeResults_eq_roundRobinSpec : ∀ a b c : List Track,
    mergeResults a b c = roundRobinSpec a b c
  | a, b, c => by
    by_cases h : a = [] ∧ b = [] ∧ c = []
    · obtain ⟨rfl, rfl, rfl⟩ := h
      rw [roundRobinSpec]
      simp [mergeResults]
    · rw [mergeResults_cons a b c h, roundRobinSpec, if_neg h,
        mergeResults_eq_roundRobinSpec a.tail b.tail c.tail]
  termination_by a b c => a.length + b.length + c.length
  decreasing_by
    have hne : a ≠ [] ∨ b ≠ [] ∨ c ≠ [] := by tauto
    simp only [List.length_tail]
    rcases hne with hne | hne | hne <;> have := List.length_pos.mpr hne <;> omega

/-- C6: `search(query, 'all')` always settles to a plain list — an
individual provider failure never fails the aggregate, it only
contributes an empty list — and the result is the round-robin interleave
(in fixed provider order youtube, soundcloud, audius) of the per-provider
lists; in particular with A = [t0, t1], B failing and C = [t2] the result
is [t0, t2, t1]. -/
theorem C6_aggregator_partial_failure (yt sc au : Except String (List Track))
    (e : String) :
    search SourceFilter.all yt sc au =
      mergeResults (recover yt) (recover sc) (recover au) ∧
    recover (Except.error e) = [] ∧
    (∀ a b c : List Track, mergeResults a b c = roundRobinSpec a b c) ∧
    search SourceFilter.all (Except.ok [t0, t1]) (Except.error "boom")
      (Except.ok [t2]) = [t0, t2, t1] := by
  refine ⟨rfl, rfl, mergeResults_eq_roundRobinSpec, ?_⟩
  decide

end StreamFlow
